import Mathlib

/-!
Shallow embedding of the seasonality HTTP service in `src/main.py`.

Modelling conventions:
* Prices and returns are rationals (`ℚ`); the service's float arithmetic is
  idealised as exact rational arithmetic, with pandas' `.round(d)` modelled by
  `roundTo d` (round half towards positive infinity, which agrees with numpy
  away from exact ties — no fixture used here sits on a tie).
* A fetched history row is abstracted to the fields the code actually projects
  out of the `DatetimeIndex`: the calendar month (`MRow`), quarter (`QRow`),
  ISO week (`YRow`, `YtdRow`), or the `resample('W')` bucket key plus the
  ISO-week labelling function (`DayRow` with `weekOf`).  `strftime('%B')` of a
  date whose month is `m` is `monthName m` in the C locale.
* `pct_change` yields `none` for the first row and an exact quotient after
  that (`retRows`, `qretRows`, `wretRows`); pandas `mean` skips missing values
  (`meanOpt`), `fillna(0)` is `Option.getD 0`.
* `groupby(k)` sorts the distinct keys ascending (`sortKeys`) and aggregates
  the rows of each key in their original order; `sort_values` is a sort by the
  named column (`List.insertionSort`, equivalent to pandas' sort here because
  group keys are distinct).
* The `std_dev` column is not modelled: no claim refers to it and a sample
  standard deviation is irrational in general.
* `resample('W').last()` is modelled on histories whose trading days cover
  every week bucket in range (no bucket is entirely empty), which is the only
  regime the claims exercise; consecutive runs of one bucket key collapse to
  the run's last close.
* The upstream `yf` collaborator is an explicit argument: `Fetch.ok rows` is a
  successful download (possibly empty), `Fetch.err msg` a raised exception.
  Route handlers take the fetch outcomes and return an HTTP status paired with
  a JSON-shaped body.
-/

namespace Seasonality

/-- Pandas `.round(d)`: round to `d` decimal digits. -/
def roundTo (d : ℕ) (q : ℚ) : ℚ := ((round (q * (10 : ℚ) ^ d) : ℤ) : ℚ) / (10 : ℚ) ^ d

/-- Pandas `mean` over a column with missing values: missing entries are
skipped; the mean of no observations is itself missing (`NaN`). -/
def meanOpt (l : List (Option ℚ)) : Option ℚ :=
  let v : List ℚ := l.filterMap id
  if v.length = 0 then none else some (v.sum / (v.length : ℚ))

/-- Pandas `fillna(0)` on a scalar. -/
def fillna0 (o : Option ℚ) : ℚ := o.getD 0

/-- Distinct group keys in ascending order, as `groupby` produces them. -/
def sortKeys (l : List ℕ) : List ℕ := List.insertionSort (· ≤ ·) l.dedup

/-- English month names as produced by `strftime('%B')` in the C locale. -/
def monthName : ℕ → String
  | 1 => "January" | 2 => "February" | 3 => "March" | 4 => "April"
  | 5 => "May" | 6 => "June" | 7 => "July" | 8 => "August"
  | 9 => "September" | 10 => "October" | 11 => "November" | 12 => "December"
  | _ => ""

/-- Quarter labels, the `quarter_names` mapping of `calculate_quarterly_seasonality`. -/
def quarterName : ℕ → String
  | 1 => "Q1" | 2 => "Q2" | 3 => "Q3" | 4 => "Q4" | _ => ""

/-- One row of the history used by `calculate_seasonality`: its calendar month
and its closing price.  (The `Year` column is also extracted by the code but
never used by the monthly aggregation.) -/
structure MRow where
  month : ℕ
  close : ℚ
deriving DecidableEq

/-- One row after `df['Returns'] = df['Close'].pct_change() * 100` and
`df['MonthName'] = strftime('%B')`: month, month name, and the (possibly
missing) percent return. -/
structure RRow where
  month : ℕ
  mname : String
  ret : Option ℚ
deriving DecidableEq

/-- Tail of the `Returns`/`MonthName` table: each row's return is computed
against the previous row's close. -/
def retRowsGo (prev : MRow) : List MRow → List RRow
  | [] => []
  | x :: xs => ⟨x.month, monthName x.month, some ((x.close / prev.close - 1) * 100)⟩ :: retRowsGo x xs

/-- The `Returns`/`MonthName` table of `calculate_seasonality`: the first row
has no return (`pct_change` of the first observation is `NaN`). -/
def retRows : List MRow → List RRow
  | [] => []
  | p :: ps => ⟨p.month, monthName p.month, none⟩ :: retRowsGo p ps

/-- One record of `monthly_stats.to_dict('records')`. -/
structure MonthRecord where
  month : ℕ
  month_name : String
  avg_return : Option ℚ
  count : ℕ
  win_rate : ℚ
deriving DecidableEq

/-- The aggregated row for month `m`: `mean`, `count` and `first` over the
group, plus the win-rate column `(x > 0).sum() / len(x) * 100` — note its
denominator is `len(x)`, the full group size including a `NaN` return. -/
def monthRecordOf (rws : List RRow) (m : ℕ) : MonthRecord :=
  let grp : List RRow := rws.filter (fun r => r.month == m)
  let defined : List ℚ := grp.filterMap (fun r => r.ret)
  { month := m
    month_name := ((grp.map (fun r => r.mname)).head?).getD ""
    avg_return := (meanOpt (grp.map (fun r => r.ret))).map (roundTo 4)
    count := defined.length
    win_rate := roundTo 2 (((defined.countP (fun q => decide (0 < q)) : ℕ) : ℚ) / (grp.length : ℚ) * 100) }

/-- The record list produced by `calculate_seasonality` on a non-empty frame:
group by month, aggregate, then `sort_values('Month')`. -/
def monthlyRecords (l : List MRow) : List MonthRecord :=
  let rws : List RRow := retRows l
  let recs : List MonthRecord := (sortKeys (l.map (fun r => r.month))).map (monthRecordOf rws)
  List.insertionSort (fun a b => a.month ≤ b.month) recs

/-- One row of the history used by `calculate_quarterly_seasonality`. -/
structure QRow where
  quarter : ℕ
  close : ℚ
deriving DecidableEq

/-- Quarter row paired with its (possibly missing) percent return. -/
structure QRetRow where
  quarter : ℕ
  ret : Option ℚ
deriving DecidableEq

/-- Tail of the quarterly `Returns` table. -/
def qretRowsGo (prev : QRow) : List QRow → List QRetRow
  | [] => []
  | x :: xs => ⟨x.quarter, some ((x.close / prev.close - 1) * 100)⟩ :: qretRowsGo x xs

/-- The quarterly `Returns` table; the first row's return is missing. -/
def qretRows : List QRow → List QRetRow
  | [] => []
  | p :: ps => ⟨p.quarter, none⟩ :: qretRowsGo p ps

/-- One record of `quarterly_stats.to_dict('records')`. -/
structure QuarterRecord where
  quarter : ℕ
  avg_return : Option ℚ
  count : ℕ
  quarter_name : String
deriving DecidableEq

/-- The aggregated row for quarter `q`. -/
def quarterRecordOf (rws : List QRetRow) (q : ℕ) : QuarterRecord :=
  let grp : List QRetRow := rws.filter (fun r => r.quarter == q)
  let defined : List ℚ := grp.filterMap (fun r => r.ret)
  { quarter := q
    avg_return := (meanOpt (grp.map (fun r => r.ret))).map (roundTo 4)
    count := defined.length
    quarter_name := quarterName q }

/-- The record list produced by `calculate_quarterly_seasonality` on a
non-empty frame (groupby already leaves the quarters in ascending order). -/
def quarterlyRecords (l : List QRow) : List QuarterRecord :=
  (sortKeys (l.map (fun r => r.quarter))).map (quarterRecordOf (qretRows l))

/-- One row of the year-to-date history of `calculate_ytd_trend`: ISO week,
`strftime('%B')` month name, and close. -/
structure YRow where
  week : ℕ
  month : String
  close : ℚ
deriving DecidableEq

/-- One record of the YTD trend: week, cumulative percent performance
(`last` per week), and the week's first month name. -/
structure YtdRecord where
  week : ℕ
  cumulative : ℚ
  month : String
deriving DecidableEq

/-- The YTD trend rows of `calculate_ytd_trend` on a non-empty frame:
cumulative performance against the first close, grouped by ISO week keeping
the last observation. -/
def ytdRecords : List YRow → List YtdRecord
  | [] => []
  | y0 :: ys =>
    let rows : List (ℕ × ℚ × String) :=
      (y0 :: ys).map (fun r => (r.week, ((r.close / y0.close - 1) * 100, r.month)))
    (sortKeys (rows.map (fun p => p.1))).map (fun w =>
      let grp : List (ℕ × ℚ × String) := rows.filter (fun p => p.1 == w)
      ⟨w, ((grp.map (fun p => p.2.1)).getLast?).getD 0, ((grp.map (fun p => p.2.2)).head?).getD ""⟩)

/-- Outcome of a `yf` history download: a (possibly empty) frame, or a raised
exception with its message. -/
inductive Fetch (α : Type) where
  | ok : List α → Fetch α
  | err : String → Fetch α
deriving DecidableEq

/-- What a `calculate_*` helper hands back to the route: Python `None` for an
empty frame, an `{'error': msg}` dictionary for a caught exception, or the
record list. -/
inductive CalcOut (β : Type) where
  | noData : CalcOut β
  | errorResult : String → CalcOut β
  | records : List β → CalcOut β
deriving DecidableEq

/-- `calculate_seasonality`: empty frame yields `None`, an upstream exception
yields `{'error': str(e)}`, otherwise the monthly records. -/
def calculate_seasonality : Fetch MRow → CalcOut MonthRecord
  | .err e => .errorResult e
  | .ok [] => .noData
  | .ok (p :: ps) => .records (monthlyRecords (p :: ps))

/-- `calculate_quarterly_seasonality`. -/
def calculate_quarterly_seasonality : Fetch QRow → CalcOut QuarterRecord
  | .err e => .errorResult e
  | .ok [] => .noData
  | .ok (p :: ps) => .records (quarterlyRecords (p :: ps))

/-- `calculate_ytd_trend`. -/
def calculate_ytd_trend : Fetch YRow → CalcOut YtdRecord
  | .err e => .errorResult e
  | .ok [] => .noData
  | .ok (p :: ps) => .records (ytdRecords (p :: ps))

/-- A JSON response body: either `{'error': msg}` or a success payload. -/
inductive Body (β : Type) where
  | err : String → Body β
  | payload : β → Body β
deriving DecidableEq

/-- Success body of `/seasonality/monthly`. -/
structure MonthlyPayload where
  ticker : String
  period : String
  avg_10y : List MonthRecord
  ytd_trend : List YtdRecord
deriving DecidableEq

/-- The `/seasonality/monthly` handler.  Both `None` and an error dictionary
from `calculate_seasonality` take the 404 branch (the route checks
`avg_result is None or 'error' in avg_result`); a failed YTD trend silently
degrades to an empty list. -/
def monthly_seasonality (ticker period : String) (mainF : Fetch MRow) (ytdF : Fetch YRow) :
    ℕ × Body MonthlyPayload :=
  match calculate_seasonality mainF with
  | .records l =>
    (200, .payload ⟨ticker, period, l,
      match calculate_ytd_trend ytdF with
      | .records y => y
      | _ => []⟩)
  | _ => (404, .err "No historical data found")

/-- Success body of `/seasonality/quarterly`. -/
structure QuarterlyPayload where
  ticker : String
  period : String
  data : List QuarterRecord
deriving DecidableEq

/-- The `/seasonality/quarterly` handler: `None` maps to 404, an error
dictionary is re-served with status 400, records give 200. -/
def quarterly_seasonality (ticker period : String) (f : Fetch QRow) : ℕ × Body QuarterlyPayload :=
  match calculate_quarterly_seasonality f with
  | .noData => (404, .err "No data found for ticker")
  | .errorResult e => (400, .err e)
  | .records l => (200, .payload ⟨ticker, period, l⟩)

/-- One trading day of the weekly endpoint's history, abstracted to its
`resample('W')` bucket key and close; a `weekOf` labelling function supplies
`isocalendar().week` of each bucket's label date. -/
structure DayRow where
  wkey : ℕ
  close : ℚ
deriving DecidableEq

/-- `df.resample('W').last()`: collapse each (consecutive) run of one week
bucket to its last close. -/
def resampleW : List DayRow → List (ℕ × ℚ)
  | [] => []
  | d :: ds =>
    match resampleW ds with
    | [] => [(d.wkey, d.close)]
    | (k, c) :: rest => if d.wkey = k then (k, c) :: rest else (d.wkey, d.close) :: (k, c) :: rest

/-- Tail of the weekly `Returns` table over the resampled closes. -/
def wretRowsGo (weekOf : ℕ → ℕ) (prev : ℕ × ℚ) : List (ℕ × ℚ) → List (ℕ × Option ℚ)
  | [] => []
  | x :: xs => (weekOf x.1, some ((x.2 / prev.2 - 1) * 100)) :: wretRowsGo weekOf x xs

/-- The weekly `Returns` table: ISO week of each resampled row paired with its
week-over-week percent return (missing on the first row). -/
def wretRows (weekOf : ℕ → ℕ) : List (ℕ × ℚ) → List (ℕ × Option ℚ)
  | [] => []
  | p :: ps => (weekOf p.1, none) :: wretRowsGo weekOf p ps

/-- The `weekly_avg` table of the `/seasonality/weekly` handler: group the
weekly returns by ISO week, `mean`, then `fillna(0)`. -/
def weekly_avg (weekOf : ℕ → ℕ) (days : List DayRow) : List (ℕ × ℚ) :=
  let rows : List (ℕ × Option ℚ) := wretRows weekOf (resampleW days)
  (sortKeys (rows.map (fun r => r.1))).map (fun w =>
    (w, fillna0 (meanOpt ((rows.filter (fun r => r.1 == w)).map (fun r => r.2)))))

/-- One row of the weekly endpoint's current-year history: ISO week of the
trading day and its close. -/
structure YtdRow where
  week : ℕ
  close : ℚ
deriving DecidableEq

/-- The `ytd_weekly` table: cumulative percent performance against the first
close of the year, grouped by ISO week keeping the last observation. -/
def ytd_weekly : List YtdRow → List (ℕ × ℚ)
  | [] => []
  | y0 :: ys =>
    let rows : List (ℕ × ℚ) := (y0 :: ys).map (fun r => (r.week, (r.close / y0.close - 1) * 100))
    (sortKeys (rows.map (fun p => p.1))).map (fun w =>
      (w, (((rows.filter (fun p => p.1 == w)).map (fun p => p.2)).getLast?).getD 0))

/-- `pd.merge(weekly_avg, ytd_weekly, on='Week', how='outer').fillna(0)`: the
sorted union of the week keys, each side's value looked up and any missing
value replaced by `0`. -/
def mergeOuterFill0 (avg ytd : List (ℕ × ℚ)) : List (ℕ × ℚ × ℚ) :=
  let ks : List ℕ := sortKeys (avg.map (fun p => p.1) ++ ytd.map (fun p => p.1))
  ks.map (fun w => (w, ((avg.lookup w).getD 0, (ytd.lookup w).getD 0)))

/-- Success body of `/seasonality/weekly`. -/
structure WeeklyPayload where
  ticker : String
  period : String
  weekly_avg : List (ℕ × ℚ × ℚ)
deriving DecidableEq

/-- The `/seasonality/weekly` handler.  A raised download is caught as 400; an
empty main history returns 404 before any computation; an empty current-year
history reaches `ytd['Close'].iloc[0]`, which raises an `IndexError` that the
same broad `except` turns into a 400. -/
def weekly_seasonality (weekOf : ℕ → ℕ) (ticker period : String)
    (mainF : Fetch DayRow) (ytdF : Fetch YtdRow) : ℕ × Body WeeklyPayload :=
  match mainF with
  | .err e => (400, .err e)
  | .ok [] => (404, .err "No data found for ticker")
  | .ok (d :: ds) =>
    match ytdF with
    | .err e => (400, .err e)
    | .ok [] => (400, .err "single positional indexer is out-of-bounds")
    | .ok (y :: ys) =>
      (200, .payload ⟨ticker, period,
        mergeOuterFill0 (weekly_avg weekOf (d :: ds)) (ytd_weekly (y :: ys))⟩)

/-- Success body of `/seasonality/compare`. -/
structure ComparePayload where
  tickers : List String
  period : String
  comparison : List (String × List MonthRecord)
deriving DecidableEq

/-- One iteration of the compare loop: keep the ticker only when
`calculate_seasonality` produced a truthy, non-error value — a non-empty
record list.  (Re-assigning an existing dictionary key would store the same
recomputed value, so keeping the first entry is equivalent.) -/
def compareStep (fetchOf : String → Fetch MRow) (acc : List (String × List MonthRecord))
    (t : String) : List (String × List MonthRecord) :=
  match calculate_seasonality (fetchOf t) with
  | .records l =>
    if l = [] then acc
    else
      match acc.lookup t with
      | some _ => acc
      | none => acc ++ [(t, l)]
  | _ => acc

/-- The `/seasonality/compare` handler: split the ticker parameter on commas,
strip whitespace, run the monthly pipeline per ticker, and answer 200 with
whatever succeeded. -/
def compare_seasonality (tickersParam period : String) (fetchOf : String → Fetch MRow) :
    ℕ × ComparePayload :=
  let tickers : List String := (tickersParam.splitOn ",").map (fun t => t.trim)
  (200, ⟨tickers, period, tickers.foldl (compareStep fetchOf) []⟩)

/-- Body of `/info/<ticker>`. -/
structure InfoPayload where
  ticker : String
  name : String
  currency : String
  exchange : String
  market : String
deriving DecidableEq

/-- The `/info/<ticker>` handler: the collaborator's `info` mapping is a
partial map from keys to strings; missing fields fall back to `"N/A"`, the
name trying `longName` then `shortName` first; a raised lookup is a 400. -/
def ticker_info (ticker : String) (infoF : Except String (String → Option String)) :
    ℕ × Body InfoPayload :=
  match infoF with
  | .error e => (400, .err e)
  | .ok info =>
    (200, .payload ⟨ticker,
      (info "longName").getD ((info "shortName").getD "N/A"),
      (info "currency").getD "N/A",
      (info "exchange").getD "N/A",
      (info "market").getD "N/A"⟩)

/-- Modelled from the spec: tail of the daily fractional-return series. -/
def specDayRetsGo (prev : DayRow) : List DayRow → List (ℕ × Option ℚ)
  | [] => []
  | x :: xs => (x.wkey, some (x.close / prev.close - 1)) :: specDayRetsGo x xs

/-- Modelled from the spec (the weekly-aggregation semantics the specification
describes, absent from `src/main.py`, stated for comparison with the code's
`weekly_avg`): per-trading-day fractional returns, with each day carrying the
year and ISO week of its week bucket. -/
def specDayRets : List DayRow → List (ℕ × Option ℚ)
  | [] => []
  | p :: ps => (p.wkey, none) :: specDayRetsGo p ps

/-- Modelled from the spec: the weekly return of `(year y, week w)` is the sum
of the daily returns in that bucket. -/
def specWeeklySum (weekOf yearOf : ℕ → ℕ) (days : List DayRow) (y w : ℕ) : ℚ :=
  (((specDayRets days).filter (fun p => yearOf p.1 == y && weekOf p.1 == w)).filterMap
    (fun p => p.2)).sum

/-- Modelled from the spec: the ISO weeks present for year `y`, ascending. -/
def specWeeksOfYear (weekOf yearOf : ℕ → ℕ) (days : List DayRow) (y : ℕ) : List ℕ :=
  sortKeys ((days.filter (fun d => yearOf d.wkey == y)).map (fun d => weekOf d.wkey))

/-- Modelled from the spec: the cumulative value of year `y` at week `w` is
the running product of `(1 + weekly return)` over the year's weeks up to `w`,
minus one. -/
def specCumAt (weekOf yearOf : ℕ → ℕ) (days : List DayRow) (y w : ℕ) : ℚ :=
  ((((specWeeksOfYear weekOf yearOf days y).filter (fun v => v ≤ w)).map
    (fun v => 1 + specWeeklySum weekOf yearOf days y v)).prod) - 1

/-- Modelled from the spec: the claimed `avg_10y` curve — at each ISO week the
mean, over the years having that week, of the year's cumulative value there,
scaled to percentage units. -/
def claimedWeeklyAvg (weekOf yearOf : ℕ → ℕ) (days : List DayRow) : List (ℕ × ℚ) :=
  (sortKeys (days.map (fun d => weekOf d.wkey))).map (fun w =>
    let ys : List ℕ := sortKeys ((days.filter (fun d => weekOf d.wkey == w)).map
      (fun d => yearOf d.wkey))
    (w, 100 * ((ys.map (fun y => specCumAt weekOf yearOf days y w)).sum) / (ys.length : ℚ)))

/-- Number of rows of the frame whose month is `m` — the `len(x)` the
win-rate lambda divides by. -/
def bucketRows (m : ℕ) (l : List MRow) : ℕ := l.countP (fun r => r.month == m)

/-- Number of strictly rising consecutive closes whose later day falls in
month `m` — the return observations of bucket `m` that are strictly
positive. -/
def upMoves (m : ℕ) (l : List MRow) : ℕ :=
  (l.zip l.tail).countP (fun p => p.2.month == m && decide (p.1.close < p.2.close))

/-! ## Generic list lemmas -/

theorem lookup_map_key {β : Type} (g : ℕ → β) :
    ∀ (ks : List ℕ) (w : ℕ), w ∈ ks →
      List.lookup w (ks.map (fun k => (k, g k))) = some (g w) := by
  intro ks
  induction ks with
  | nil => intro w h; cases h
  | cons k ks ih =>
    intro w h
    by_cases hk : w = k
    · subst hk
      simp [List.lookup]
    · have hmem : w ∈ ks := by
        rcases List.mem_cons.mp h with h1 | h1
        · exact absurd h1 hk
        · exact h1
      have hbeq : (w == k) = false := by
        simp [hk]
      simp [List.lookup, hbeq, ih w hmem]

theorem filter_eq_singleton_of_countP_one {α : Type} (p : α → Bool) :
    ∀ (l : List α) (i : ℕ) (x : α), l.countP p = 1 → l[i]? = some x → p x = true →
      l.filter p = [x] := by
  intro l
  induction l with
  | nil => intro i x _ h2 _; simp at h2
  | cons a l ih =>
    intro i x hc hg hp
    rw [List.countP_cons] at hc
    by_cases hpa : p a = true
    · rw [if_pos hpa] at hc
      have hz : l.countP p = 0 := by omega
      have hfl : l.filter p = [] :=
        List.filter_eq_nil_iff.mpr (fun b hb => by
          have := List.countP_eq_zero.mp hz b hb
          simpa using this)
      have hxa : x = a := by
        cases i with
        | zero =>
          rw [List.getElem?_cons_zero] at hg
          exact (Option.some.injEq _ _).mp hg.symm
        | succ j =>
          rw [List.getElem?_cons_succ] at hg
          obtain ⟨hlt, hget⟩ := List.getElem?_eq_some_iff.mp hg
          have hxl : x ∈ l := hget ▸ List.getElem_mem hlt
          have := List.countP_eq_zero.mp hz x hxl
          exact absurd hp this
      rw [List.filter_cons, if_pos hpa, hfl, hxa]
    · rw [if_neg hpa] at hc
      have hc' : l.countP p = 1 := by omega
      cases i with
      | zero =>
        rw [List.getElem?_cons_zero] at hg
        have hxa : x = a := (Option.some.injEq _ _).mp hg.symm
        rw [hxa] at hp
        exact absurd hp hpa
      | succ j =>
        rw [List.getElem?_cons_succ] at hg
        rw [List.filter_cons, if_neg hpa]
        exact ih j x hc' hg hp

theorem count_map_eq_countP {α : Type} (f : α → ℕ) (w : ℕ) :
    ∀ l : List α, (l.map f).count w = l.countP (fun x => f x == w) := by
  intro l
  induction l with
  | nil => rfl
  | cons a l ih =>
    rw [List.map_cons, List.count_cons, List.countP_cons, ih]

theorem sum_map_add_distrib (f g : ℕ → ℕ) :
    ∀ ks : List ℕ, (ks.map (fun m => f m + g m)).sum = (ks.map f).sum + (ks.map g).sum := by
  intro ks
  induction ks with
  | nil => rfl
  | cons k ks ih =>
    simp only [List.map_cons, List.sum_cons, ih]
    omega

theorem sum_map_indicator (a : ℕ) :
    ∀ ks : List ℕ, (ks.map (fun m => if a == m then 1 else 0)).sum = ks.count a := by
  intro ks
  induction ks with
  | nil => rfl
  | cons k ks ih =>
    simp only [List.map_cons, List.sum_cons, List.count_cons, ih]
    by_cases h : a = k
    · subst h; simp [Nat.add_comm]
    · have h1 : (a == k) = false := by simp [h]
      have h2 : (k == a) = false := by
        have : ¬k = a := fun e => h e.symm
        simp [this]
      rw [h1, h2]
      simp

theorem countP_key_partition {α : Type} (key : α → ℕ) :
    ∀ (L : List α) (ks : List ℕ), ks.Nodup → (∀ x ∈ L, key x ∈ ks) →
      (ks.map (fun m => L.countP (fun x => key x == m))).sum = L.length := by
  intro L
  induction L with
  | nil =>
    intro ks _ _
    rw [List.length_nil]
    apply List.sum_eq_zero
    intro x hx
    obtain ⟨m, _, hm⟩ := List.mem_map.mp hx
    rw [← hm, List.countP_nil]
  | cons a L ih =>
    intro ks hnd hcov
    have hcov' : ∀ x ∈ L, key x ∈ ks := fun x hx => hcov x (List.mem_cons_of_mem a hx)
    have hmap : ks.map (fun m => (a :: L).countP (fun x => key x == m))
        = ks.map (fun m => L.countP (fun x => key x == m) + if key a == m then 1 else 0) := by
      apply List.map_congr_left
      intro m _
      rw [List.countP_cons]
    rw [hmap, sum_map_add_distrib, ih ks hnd hcov', sum_map_indicator,
        List.count_eq_one_of_mem hnd (hcov a (List.mem_cons_self a L)), List.length_cons]

theorem mem_sortKeys {a : ℕ} {l : List ℕ} : a ∈ sortKeys l ↔ a ∈ l := by
  rw [sortKeys, List.mem_insertionSort, List.mem_dedup]

theorem sortKeys_nodup (l : List ℕ) : (sortKeys l).Nodup :=
  ((List.perm_insertionSort (· ≤ ·) l.dedup).symm).nodup (List.nodup_dedup l)

/-! ## Structure lemmas about the derived return tables -/

theorem retRowsGo_map_month :
    ∀ (ps : List MRow) (prev : MRow),
      (retRowsGo prev ps).map (fun r => r.month) = ps.map (fun r => r.month) := by
  intro ps
  induction ps with
  | nil => intro prev; rfl
  | cons x xs ih => intro prev; simp [retRowsGo, ih x]

theorem retRows_map_month (l : List MRow) :
    (retRows l).map (fun r => r.month) = l.map (fun r => r.month) := by
  cases l with
  | nil => rfl
  | cons p ps => simp [retRows, retRowsGo_map_month]

theorem retRowsGo_mname :
    ∀ (ps : List MRow) (prev : MRow), ∀ r ∈ retRowsGo prev ps, r.mname = monthName r.month := by
  intro ps
  induction ps with
  | nil => intro prev r h; cases h
  | cons x xs ih =>
    intro prev r h
    rcases List.mem_cons.mp h with h1 | h1
    · subst h1; rfl
    · exact ih x r h1

theorem retRows_mname (l : List MRow) : ∀ r ∈ retRows l, r.mname = monthName r.month := by
  cases l with
  | nil => intro r h; cases h
  | cons p ps =>
    intro r h
    rcases List.mem_cons.mp h with h1 | h1
    · subst h1; rfl
    · exact retRowsGo_mname ps p r h1

theorem length_filterMap_ret :
    ∀ grp : List RRow,
      (grp.filterMap (fun r => r.ret)).length = grp.countP (fun r => r.ret.isSome) := by
  intro grp
  induction grp with
  | nil => rfl
  | cons a grp ih =>
    cases ha : a.ret with
    | none => simp [List.filterMap_cons, ha, List.countP_cons, ih]
    | some q => simp [List.filterMap_cons, ha, List.countP_cons, ih]

theorem retRowsGo_countP_isSome (m : ℕ) :
    ∀ (ps : List MRow) (prev : MRow),
      (retRowsGo prev ps).countP (fun r => r.ret.isSome && r.month == m)
        = ps.countP (fun r => r.month == m) := by
  intro ps
  induction ps with
  | nil => intro prev; rfl
  | cons x xs ih =>
    intro prev
    simp [retRowsGo, List.countP_cons, ih x]

theorem retRows_countP_isSome (m : ℕ) (l : List MRow) :
    (retRows l).countP (fun r => r.ret.isSome && r.month == m)
      = l.tail.countP (fun r => r.month == m) := by
  cases l with
  | nil => rfl
  | cons p ps => simp [retRows, List.countP_cons, retRowsGo_countP_isSome m ps p]

theorem retRowsGo_countP_pos (m : ℕ) :
    ∀ (ps : List MRow) (prev : MRow), 0 < prev.close → (∀ r ∈ ps, 0 < r.close) →
      (retRowsGo prev ps).countP
          (fun r => ((r.ret.map (fun q => decide (0 < q))).getD false) && r.month == m)
        = ((prev :: ps).zip ps).countP
            (fun p => p.2.month == m && decide (p.1.close < p.2.close)) := by
  intro ps
  induction ps with
  | nil => intro prev _ _; rfl
  | cons x xs ih =>
    intro prev hprev hpos
    have hx : 0 < x.close := hpos x (List.mem_cons_self x xs)
    have hpos' : ∀ r ∈ xs, 0 < r.close := fun r hr => hpos r (List.mem_cons_of_mem x hr)
    show ((⟨x.month, monthName x.month, some ((x.close / prev.close - 1) * 100)⟩ : RRow)
          :: retRowsGo x xs).countP _
        = ((prev, x) :: ((x :: xs).zip xs)).countP _
    rw [List.countP_cons, List.countP_cons, ih x hx hpos']
    have hiff : (0 < (x.close / prev.close - 1) * 100) ↔ prev.close < x.close := by
      have h100 : (0 : ℚ) < 100 := by norm_num
      have hz : ((0 : ℚ) < (x.close / prev.close - 1) * 100)
          ↔ ((0 : ℚ) * 100 < (x.close / prev.close - 1) * 100) := by rw [zero_mul]
      rw [hz, mul_lt_mul_right h100, sub_pos, one_lt_div hprev]
    have hd : decide (0 < (x.close / prev.close - 1) * 100) = decide (prev.close < x.close) :=
      decide_eq_decide.mpr hiff
    simp only [Bool.and_comm, hd]
    simp [one_lt_div hprev]

theorem retRows_countP_pos (m : ℕ) (l : List MRow) (hpos : ∀ r ∈ l, 0 < r.close) :
    (retRows l).countP
        (fun r => ((r.ret.map (fun q => decide (0 < q))).getD false) && r.month == m)
      = upMoves m l := by
  cases l with
  | nil => rfl
  | cons p ps =>
    have hp : 0 < p.close := hpos p (List.mem_cons_self p ps)
    have hpos' : ∀ r ∈ ps, 0 < r.close := fun r hr => hpos r (List.mem_cons_of_mem p hr)
    show ((⟨p.month, monthName p.month, none⟩ : RRow) :: retRowsGo p ps).countP _ = _
    rw [List.countP_cons, retRowsGo_countP_pos m ps p hp hpos']
    rfl

theorem wretRowsGo_map_fst (weekOf : ℕ → ℕ) :
    ∀ (xs : List (ℕ × ℚ)) (prev : ℕ × ℚ),
      (wretRowsGo weekOf prev xs).map (fun r => r.1) = xs.map (fun p => weekOf p.1) := by
  intro xs
  induction xs with
  | nil => intro prev; rfl
  | cons x xs ih => intro prev; simp [wretRowsGo, ih x]

theorem wretRows_map_fst (weekOf : ℕ → ℕ) (rs : List (ℕ × ℚ)) :
    (wretRows weekOf rs).map (fun r => r.1) = rs.map (fun p => weekOf p.1) := by
  cases rs with
  | nil => rfl
  | cons p ps => simp [wretRows, wretRowsGo_map_fst]

theorem wretRowsGo_getElem (weekOf : ℕ → ℕ) :
    ∀ (xs : List (ℕ × ℚ)) (prev pr x : ℕ × ℚ) (j : ℕ),
      (prev :: xs)[j]? = some pr → xs[j]? = some x →
      (wretRowsGo weekOf prev xs)[j]? = some (weekOf x.1, some ((x.2 / pr.2 - 1) * 100)) := by
  intro xs
  induction xs with
  | nil => intro prev pr x j _ h2; simp at h2
  | cons a xs ih =>
    intro prev pr x j h1 h2
    have hgo : wretRowsGo weekOf prev (a :: xs)
        = (weekOf a.1, some ((a.2 / prev.2 - 1) * 100)) :: wretRowsGo weekOf a xs := rfl
    cases j with
    | zero =>
      rw [List.getElem?_cons_zero] at h1 h2
      have hpr : prev = pr := (Option.some.injEq _ _).mp h1
      have hx : a = x := (Option.some.injEq _ _).mp h2
      subst hpr; subst hx
      rw [hgo, List.getElem?_cons_zero]
    | succ j =>
      rw [List.getElem?_cons_succ] at h1 h2
      rw [hgo, List.getElem?_cons_succ]
      exact ih a pr x j h1 h2

theorem wretRows_getElem_succ (weekOf : ℕ → ℕ) (rs : List (ℕ × ℚ)) (i : ℕ) (pr x : ℕ × ℚ)
    (h1 : rs[i]? = some pr) (h2 : rs[i + 1]? = some x) :
    (wretRows weekOf rs)[i + 1]? = some (weekOf x.1, some ((x.2 / pr.2 - 1) * 100)) := by
  cases rs with
  | nil => simp at h1
  | cons p ps =>
    rw [List.getElem?_cons_succ] at h2
    show ((weekOf p.1, (none : Option ℚ)) :: wretRowsGo weekOf p ps)[i + 1]? = _
    rw [List.getElem?_cons_succ]
    exact wretRowsGo_getElem weekOf ps p pr x i h1 h2

/-! ## Claim C4: HTTP status mapping of the three seasonality endpoints -/

/-- C4 (amended): the monthly route maps an empty history to 404 and — unlike
the claim — also maps an upstream failure to 404, because it tests
`avg_result is None or 'error' in avg_result` in one branch; the quarterly and
weekly routes map empty to 404 and upstream failure to 400; success is 200 on
all three (for the weekly route a success additionally needs a non-empty
current-year history, whose first row the handler indexes). -/
theorem route_status_mapping :
    (∀ tk pd e (yf : Fetch YRow),
      monthly_seasonality tk pd (Fetch.err e) yf = (404, Body.err "No historical data found")) ∧
    (∀ tk pd (yf : Fetch YRow),
      monthly_seasonality tk pd (Fetch.ok []) yf = (404, Body.err "No historical data found")) ∧
    (∀ tk pd r rs (yf : Fetch YRow),
      (monthly_seasonality tk pd (Fetch.ok (r :: rs)) yf).1 = 200) ∧
    (∀ tk pd e, quarterly_seasonality tk pd (Fetch.err e) = (400, Body.err e)) ∧
    (∀ tk pd,
      quarterly_seasonality tk pd (Fetch.ok []) = (404, Body.err "No data found for ticker")) ∧
    (∀ tk pd q qs, (quarterly_seasonality tk pd (Fetch.ok (q :: qs))).1 = 200) ∧
    (∀ wf tk pd e (yf : Fetch YtdRow),
      weekly_seasonality wf tk pd (Fetch.err e) yf = (400, Body.err e)) ∧
    (∀ wf tk pd (yf : Fetch YtdRow),
      weekly_seasonality wf tk pd (Fetch.ok []) yf = (404, Body.err "No data found for ticker")) ∧
    (∀ wf tk pd d ds e,
      weekly_seasonality wf tk pd (Fetch.ok (d :: ds)) (Fetch.err e) = (400, Body.err e)) ∧
    (∀ wf tk pd d ds,
      (weekly_seasonality wf tk pd (Fetch.ok (d :: ds)) (Fetch.ok [])).1 = 400) ∧
    (∀ wf tk pd d ds y ys,
      (weekly_seasonality wf tk pd (Fetch.ok (d :: ds)) (Fetch.ok (y :: ys))).1 = 200) :=
  ⟨fun _ _ _ _ => rfl, fun _ _ _ => rfl, fun _ _ _ _ _ => rfl, fun _ _ _ => rfl,
   fun _ _ => rfl, fun _ _ _ _ => rfl, fun _ _ _ _ _ => rfl, fun _ _ _ _ => rfl,
   fun _ _ _ _ _ _ => rfl, fun _ _ _ _ _ => rfl, fun _ _ _ _ _ _ _ => rfl⟩

/-- C4, counterexample to the claim as stated: an upstream failure on the
monthly endpoint is answered with status 404, not the claimed 400. -/
theorem monthly_upstream_status_counterexample :
    (monthly_seasonality "AAA" "10y" (Fetch.err "boom") (Fetch.ok [])).1 = 404 ∧
    (404 : ℕ) ≠ 400 :=
  ⟨rfl, by decide⟩

/-! ## Claim C7: empty history is a sentinel distinct from computed output -/

/-- C7: an empty fetched history makes `calculate_seasonality` return the
`None` sentinel (no exception is modelled: the function is total), that
sentinel is distinguishable from any computed record list, and the monthly
route then answers 404 with body `{'error': 'No historical data found'}`. -/
theorem empty_series_nodata_404 :
    calculate_seasonality (Fetch.ok []) = CalcOut.noData ∧
    (∀ l : List MonthRecord, (CalcOut.noData : CalcOut MonthRecord) ≠ CalcOut.records l) ∧
    (∀ tk pd (yf : Fetch YRow),
      monthly_seasonality tk pd (Fetch.ok []) yf = (404, Body.err "No historical data found")) :=
  ⟨rfl, fun _ h => CalcOut.noConfusion h, fun _ _ _ => rfl⟩

/-! ## Claim C9: the compare response echoes every parsed ticker -/

/-- C9: the `tickers` field of the compare response is exactly the
comma-split, whitespace-trimmed request parameter, independent of any fetch
outcome; in particular when every fetch fails the comparison mapping is empty
while the `tickers` list is still the full parsed list, so the two can
disagree. -/
theorem compare_echoes_parsed_tickers (param period : String)
    (fetchOf : String → Fetch MRow) :
    (compare_seasonality param period fetchOf).2.tickers
        = (param.splitOn ",").map (fun s => s.trim) ∧
    ((∀ t, ∃ e, fetchOf t = Fetch.err e) →
      (compare_seasonality param period fetchOf).2.comparison = []) := by
  constructor
  · rfl
  · intro hall
    show ((param.splitOn ",").map (fun s => s.trim)).foldl (compareStep fetchOf) [] = []
    generalize (param.splitOn ",").map (fun s => s.trim) = ts
    induction ts with
    | nil => rfl
    | cons t ts ih =>
      obtain ⟨e, he⟩ := hall t
      show (ts.foldl (compareStep fetchOf) (compareStep fetchOf [] t)) = []
      have hstep : compareStep fetchOf [] t = [] := by
        simp [compareStep, he, calculate_seasonality]
      rw [hstep]
      exact ih

/-- C9, witness: with two parsed tickers both failing upstream, the
comparison mapping is empty. -/
theorem compare_echoes_parsed_tickers_witness :
    (∀ t : String, ∃ e, (fun _ : String => Fetch.err (α := MRow) "boom") t = Fetch.err e) ∧
    (compare_seasonality "AAA,BBB" "10y"
      (fun _ : String => Fetch.err (α := MRow) "boom")).2.comparison = [] :=
  ⟨fun _ => ⟨"boom", rfl⟩,
   (compare_echoes_parsed_tickers "AAA,BBB" "10y" _).2 (fun _ => ⟨"boom", rfl⟩)⟩

/-! ## Claim C10: `/info/<ticker>` field defaults -/

/-- C10: when the info lookup succeeds the route answers 200 and each missing
field of the payload falls back to `"N/A"`, the name trying `longName` then
`shortName` before the fallback; a raised lookup is answered 400 with the
error body. -/
theorem ticker_info_defaults (t : String) (m : String → Option String) :
    (ticker_info t (Except.ok m)).1 = 200 ∧
    (∀ e, ticker_info t (Except.error e) = (400, Body.err e)) ∧
    (∀ p, (ticker_info t (Except.ok m)).2 = Body.payload p →
      p.ticker = t ∧
      (m "currency" = none → p.currency = "N/A") ∧
      (∀ c, m "currency" = some c → p.currency = c) ∧
      (m "exchange" = none → p.exchange = "N/A") ∧
      (∀ c, m "exchange" = some c → p.exchange = c) ∧
      (m "market" = none → p.market = "N/A") ∧
      (∀ c, m "market" = some c → p.market = c) ∧
      (m "longName" = none → m "shortName" = none → p.name = "N/A") ∧
      (∀ s, m "longName" = none → m "shortName" = some s → p.name = s) ∧
      (∀ n, m "longName" = some n → p.name = n)) := by
  refine ⟨rfl, fun _ => rfl, fun p hp => ?_⟩
  have hp2 : p = ⟨t,
      (m "longName").getD ((m "shortName").getD "N/A"),
      (m "currency").getD "N/A",
      (m "exchange").getD "N/A",
      (m "market").getD "N/A"⟩ := by
    have := hp.symm
    exact (Body.payload.injEq _ _).mp this
  subst hp2
  refine ⟨rfl, ?_, ?_, ?_, ?_, ?_, ?_, ?_, ?_, ?_⟩
  · intro h; rw [h]; rfl
  · intro c h; rw [h]; rfl
  · intro h; rw [h]; rfl
  · intro c h; rw [h]; rfl
  · intro h; rw [h]; rfl
  · intro c h; rw [h]; rfl
  · intro h1 h2; show ((m "longName").getD ((m "shortName").getD "N/A")) = "N/A"
    rw [h1, h2]; rfl
  · intro s h1 h2; show ((m "longName").getD ((m "shortName").getD "N/A")) = s
    rw [h1, h2]; rfl
  · intro n h; show ((m "longName").getD ((m "shortName").getD "N/A")) = n
    rw [h]; rfl

/-- C10, witness: an info mapping holding only `shortName` yields that value
as the name and `"N/A"` for the currency. -/
theorem ticker_info_defaults_witness :
    (ticker_info "AAA" (Except.ok
        (fun k => if k = "shortName" then some "Acme" else none))).1 = 200 ∧
    (∀ p, (ticker_info "AAA" (Except.ok
        (fun k => if k = "shortName" then some "Acme" else none))).2 = Body.payload p →
      p.name = "Acme" ∧ p.currency = "N/A") := by
  have h := ticker_info_defaults "AAA" (fun k => if k = "shortName" then some "Acme" else none)
  refine ⟨h.1, fun p hp => ?_⟩
  have hfacts := h.2.2 p hp
  exact ⟨hfacts.2.2.2.2.2.2.2.2.1 "Acme" rfl rfl, hfacts.2.1 rfl⟩

/-! ## Claim C2: the weekly merge fills gaps with zero, not forward-fill -/

/-- C2, counterexample to the claim as stated: with the avg curve defined at
weeks `{1, 2, 4}` and the ytd curve at `{1, 3}`, the merged table holds
`(7, 0)` at week 2 and `(0, 11)` at week 3 — the missing sides are fabricated
zeroes, not the forward-filled `3` (ytd of week 1) and `7` (avg of week 2)
the claim predicts. -/
theorem merge_forward_fill_counterexample :
    (mergeOuterFill0 [(1, 5), (2, 7), (4, 9)] [(1, 3), (3, 11)]).lookup 2 = some (7, 0) ∧
    (mergeOuterFill0 [(1, 5), (2, 7), (4, 9)] [(1, 3), (3, 11)]).lookup 3 = some (0, 11) ∧
    (0 : ℚ) ≠ 3 ∧ (0 : ℚ) ≠ 7 := by
  refine ⟨rfl, rfl, by norm_num, by norm_num⟩

/-! ## Claim C3: the win-rate denominator is the full group size -/

/-- C3, counterexample to the claim as stated: two same-month closes 100 and
110 give one return observation (`count = 1`), strictly positive, so the
claimed formula demands `win_rate = 100 * 1 / 1 = 100`; the code divides by
`len(x) = 2` (the group still holds the first row's `NaN` return) and stores
50. -/
theorem win_rate_exact_formula_counterexample :
    monthlyRecords [⟨1, 100⟩, ⟨1, 110⟩] =
      [{ month := 1, month_name := "January", avg_return := some 10,
         count := 1, win_rate := 50 }] ∧
    (50 : ℚ) ≠ 100 * 1 / 1 := by
  constructor
  · norm_num [monthlyRecords, retRows, retRowsGo, sortKeys, monthRecordOf, meanOpt, roundTo,
      List.insertionSort, List.orderedInsert, monthName, round_eq,
      List.filterMap_cons, List.filterMap_nil, List.countP_cons, List.countP_nil,
      List.sum_cons, List.sum_nil, id_eq]
  · norm_num

/-! ## Claim C6: per-month counts partition the return observations -/

/-- C6: every produced month bucket's `count` equals the number of return
observations (rows from index 1 onward) whose month is that bucket's month,
and the counts over all produced buckets sum to `N - 1`, the length of the
tail of the price series — no observation is lost or double-counted. -/
theorem monthly_counts_partition (l : List MRow) :
    (∀ rec ∈ monthlyRecords l, rec.count = l.tail.countP (fun r => r.month == rec.month)) ∧
    ((monthlyRecords l).map (fun rec => rec.count)).sum = l.tail.length := by
  have hcount : ∀ m : ℕ, (monthRecordOf (retRows l) m).count
      = l.tail.countP (fun r => r.month == m) := by
    intro m
    show (((retRows l).filter (fun r => r.month == m)).filterMap (fun r => r.ret)).length = _
    rw [length_filterMap_ret, List.countP_filter, retRows_countP_isSome]
  constructor
  · intro rec hrec
    simp only [monthlyRecords] at hrec
    have hrec' := (List.mem_insertionSort (fun a b : MonthRecord => a.month ≤ b.month)).mp hrec
    obtain ⟨m, _, hrecm⟩ := List.mem_map.mp hrec'
    rw [← hrecm]
    have hmonth : (monthRecordOf (retRows l) m).month = m := rfl
    rw [hmonth, hcount m]
  · have hperm : ((monthlyRecords l).map (fun rec => rec.count)).Perm
        (((sortKeys (l.map (fun r => r.month))).map (monthRecordOf (retRows l))).map
          (fun rec => rec.count)) := by
      apply List.Perm.map
      exact List.perm_insertionSort _ _
    rw [hperm.sum_eq, List.map_map]
    have hmapeq : (sortKeys (l.map (fun r => r.month))).map
          ((fun rec : MonthRecord => rec.count) ∘ monthRecordOf (retRows l))
        = (sortKeys (l.map (fun r => r.month))).map
            (fun m => l.tail.countP (fun r => r.month == m)) := by
      apply List.map_congr_left
      intro m _
      exact hcount m
    rw [hmapeq]
    apply countP_key_partition (fun r : MRow => r.month) l.tail
    · exact sortKeys_nodup _
    · intro x hx
      exact mem_sortKeys.mpr (List.mem_map.mpr ⟨x, List.mem_of_mem_tail hx, rfl⟩)

/-- C6, witness: over closes 100, 110, 110 in months 1, 2, 1, the month-1
bucket counts exactly the one return observation of month 1. -/
theorem monthly_counts_partition_witness :
    (({ month := 1, month_name := "January", avg_return := some 0, count := 1, win_rate := 0 }
        : MonthRecord) ∈ monthlyRecords [⟨1, 100⟩, ⟨2, 110⟩, ⟨1, 110⟩]) ∧
    ({ month := 1, month_name := "January", avg_return := some 0, count := 1, win_rate := 0 }
        : MonthRecord).count
      = ([⟨1, 100⟩, ⟨2, 110⟩, ⟨1, 110⟩] : List MRow).tail.countP (fun r => r.month == 1) := by
  have hmem : ({ month := 1, month_name := "January", avg_return := some 0, count := 1, win_rate := 0 } : MonthRecord) ∈ monthlyRecords [⟨1, 100⟩, ⟨2, 110⟩, ⟨1, 110⟩] := by
    norm_num [monthlyRecords, retRows, retRowsGo, sortKeys, monthRecordOf, meanOpt, roundTo,
      List.insertionSort, List.orderedInsert, monthName, round_eq,
      List.filterMap_cons, List.filterMap_nil, List.countP_cons, List.countP_nil,
      List.sum_cons, List.sum_nil, id_eq]
  exact ⟨hmem, (monthly_counts_partition [⟨1, 100⟩, ⟨2, 110⟩, ⟨1, 110⟩]).1 _ hmem⟩

/-! ## Claim C8: fixed month labels and ascending month order -/

/-- C8: the monthly aggregator's output is sorted ascending by month number,
and every bucket carries the fixed English name of its month number (month 1
is always labeled January), independently of which years contributed. -/
theorem month_labels_fixed_and_sorted (l : List MRow) :
    List.Sorted (fun a b : MonthRecord => a.month ≤ b.month) (monthlyRecords l) ∧
    ∀ rec ∈ monthlyRecords l, rec.month_name = monthName rec.month := by
  constructor
  · haveI ht : IsTotal MonthRecord (fun a b => a.month ≤ b.month) :=
      ⟨fun a b => Nat.le_total a.month b.month⟩
    haveI htr : IsTrans MonthRecord (fun a b => a.month ≤ b.month) :=
      ⟨fun a b c hab hbc => Nat.le_trans hab hbc⟩
    simp only [monthlyRecords]
    exact List.sorted_insertionSort _ _
  · intro rec hrec
    simp only [monthlyRecords] at hrec
    have hrec' := (List.mem_insertionSort (fun a b : MonthRecord => a.month ≤ b.month)).mp hrec
    obtain ⟨m, hm, hrecm⟩ := List.mem_map.mp hrec'
    have hmonths : m ∈ (retRows l).map (fun r => r.month) := by
      rw [retRows_map_month]
      exact mem_sortKeys.mp hm
    obtain ⟨r0, hr0mem, hr0⟩ := List.mem_map.mp hmonths
    have hr0f : r0 ∈ (retRows l).filter (fun r => r.month == m) :=
      List.mem_filter.mpr ⟨hr0mem, by simp [hr0]⟩
    rw [← hrecm]
    have hmonth : (monthRecordOf (retRows l) m).month = m := rfl
    rw [hmonth]
    show ((((retRows l).filter (fun r => r.month == m)).map (fun r => r.mname)).head?).getD ""
        = monthName m
    cases hgrp : (retRows l).filter (fun r => r.month == m) with
    | nil => rw [hgrp] at hr0f; cases hr0f
    | cons g gs =>
      have hg : g ∈ (retRows l).filter (fun r => r.month == m) := by
        rw [hgrp]
        exact List.mem_cons_self g gs
      have hgmem : g ∈ retRows l := (List.mem_filter.mp hg).1
      have hgm : g.month = m := by
        have := (List.mem_filter.mp hg).2
        simpa using this
      have hname : g.mname = monthName m := by
        rw [retRows_mname l g hgmem, hgm]
      simp [hname]

/-- C8, witness: with the months arriving out of order (2 then 1), the
month-1 bucket still carries the label January. -/
theorem month_labels_fixed_and_sorted_witness :
    ((⟨1, "January", some 10, 1, 100⟩ : MonthRecord)
        ∈ monthlyRecords [⟨2, 100⟩, ⟨1, 110⟩]) ∧
    (⟨1, "January", some 10, 1, 100⟩ : MonthRecord).month_name = monthName 1 := by
  have hmem : (⟨1, "January", some 10, 1, 100⟩ : MonthRecord)
      ∈ monthlyRecords [⟨2, 100⟩, ⟨1, 110⟩] := by
    norm_num [monthlyRecords, retRows, retRowsGo, sortKeys, monthRecordOf, meanOpt, roundTo,
      List.insertionSort, List.orderedInsert, monthName, round_eq,
      List.filterMap_cons, List.filterMap_nil, List.countP_cons, List.countP_nil,
      List.sum_cons, List.sum_nil, id_eq]
  exact ⟨hmem, (month_labels_fixed_and_sorted [⟨2, 100⟩, ⟨1, 110⟩]).2 _ hmem⟩

/-- C3 (amended): with strictly positive prices, every produced bucket's
win rate equals `round(100 * u / n, 2)` where `u` counts the bucket's
strictly positive return observations but `n` is the number of frame rows in
the bucket — for the bucket containing the series' first row that is
`count + 1`, not `count`, because the first row's `NaN` return stays in the
group; the column is also rounded and present even when `count = 0`. -/
theorem win_rate_uses_group_length (l : List MRow) (hpos : ∀ r ∈ l, 0 < r.close)
    (rec : MonthRecord) (hrec : rec ∈ monthlyRecords l) :
    rec.win_rate = roundTo 2 (((upMoves rec.month l : ℕ) : ℚ)
      / ((bucketRows rec.month l : ℕ) : ℚ) * 100) := by
  simp only [monthlyRecords] at hrec
  have hrec' := (List.mem_insertionSort (fun a b : MonthRecord => a.month ≤ b.month)).mp hrec
  obtain ⟨m, _, hrecm⟩ := List.mem_map.mp hrec'
  rw [← hrecm]
  have hmonth : (monthRecordOf (retRows l) m).month = m := rfl
  rw [hmonth]
  have hnum : ((((retRows l).filter (fun r => r.month == m)).filterMap (fun r => r.ret)).countP
      (fun q => decide (0 < q))) = upMoves m l := by
    rw [List.countP_filterMap, List.countP_filter, retRows_countP_pos m l hpos]
  have hden : (((retRows l).filter (fun r => r.month == m)).length) = bucketRows m l := by
    rw [← List.countP_eq_length_filter]
    have h1 : (retRows l).countP (fun r => r.month == m)
        = ((retRows l).map (fun r => r.month)).count m :=
      (count_map_eq_countP (fun r : RRow => r.month) m (retRows l)).symm
    rw [h1, retRows_map_month, count_map_eq_countP]
    rfl
  show roundTo 2 ((((((retRows l).filter (fun r => r.month == m)).filterMap
        (fun r => r.ret)).countP (fun q => decide (0 < q)) : ℕ) : ℚ)
      / ((((retRows l).filter (fun r => r.month == m)).length : ℕ) : ℚ) * 100) = _
  rw [hnum, hden]

/-- C3, witness: over closes 100 and 110 in month 1, the single bucket's win
rate is `round(100 * 1 / 2, 2) = 50`. -/
theorem win_rate_uses_group_length_witness :
    (∀ r ∈ ([⟨1, 100⟩, ⟨1, 110⟩] : List MRow), 0 < r.close) ∧
    ((⟨1, "January", some 10, 1, 50⟩ : MonthRecord)
        ∈ monthlyRecords [⟨1, 100⟩, ⟨1, 110⟩]) ∧
    (⟨1, "January", some 10, 1, 50⟩ : MonthRecord).win_rate
      = roundTo 2 (((upMoves 1 [⟨1, 100⟩, ⟨1, 110⟩] : ℕ) : ℚ)
          / ((bucketRows 1 [⟨1, 100⟩, ⟨1, 110⟩] : ℕ) : ℚ) * 100) := by
  have hpos : ∀ r ∈ ([⟨1, 100⟩, ⟨1, 110⟩] : List MRow), 0 < r.close := by
    intro r hr
    rcases List.mem_cons.mp hr with h | hr2
    · subst h; norm_num
    · rcases List.mem_cons.mp hr2 with h | h3
      · subst h; norm_num
      · cases h3
  have hmem : (⟨1, "January", some 10, 1, 50⟩ : MonthRecord)
      ∈ monthlyRecords [⟨1, 100⟩, ⟨1, 110⟩] := by
    norm_num [monthlyRecords, retRows, retRowsGo, sortKeys, monthRecordOf, meanOpt, roundTo,
      List.insertionSort, List.orderedInsert, monthName, round_eq,
      List.filterMap_cons, List.filterMap_nil, List.countP_cons, List.countP_nil,
      List.sum_cons, List.sum_nil, id_eq]
  exact ⟨hpos, hmem, win_rate_uses_group_length [⟨1, 100⟩, ⟨1, 110⟩] hpos _ hmem⟩

/-! ## Claim C1: the weekly average curve is not a cumulative product -/

/-- C1 (amended): the weekly aggregator resamples the history to weekly last
closes and takes, per ISO week, the mean of the week-over-week percent
returns of those closes (0 where no return is defined) — no summing of daily
returns and no compounding across weeks.  In particular, when an ISO week
labels exactly one resampled bucket, the published value at that week is just
that bucket's close-over-previous-close percent return. -/
theorem weekly_avg_single_week_return (weekOf : ℕ → ℕ) (days : List DayRow) (i : ℕ)
    (pr x : ℕ × ℚ)
    (hp : (resampleW days)[i]? = some pr)
    (hc : (resampleW days)[i + 1]? = some x)
    (hcount : ((resampleW days).map (fun p => weekOf p.1)).count (weekOf x.1) = 1) :
    (weekly_avg weekOf days).lookup (weekOf x.1) = some ((x.2 / pr.2 - 1) * 100) := by
  have hrow := wretRows_getElem_succ weekOf (resampleW days) i pr x hp hc
  have hmapfst := wretRows_map_fst weekOf (resampleW days)
  have hcount' : (wretRows weekOf (resampleW days)).countP (fun r => r.1 == weekOf x.1) = 1 := by
    rw [← count_map_eq_countP (fun r : ℕ × Option ℚ => r.1) (weekOf x.1), hmapfst]
    exact hcount
  have hfil : (wretRows weekOf (resampleW days)).filter (fun r => r.1 == weekOf x.1)
      = [(weekOf x.1, some ((x.2 / pr.2 - 1) * 100))] :=
    filter_eq_singleton_of_countP_one _ _ (i + 1) _ hcount' hrow (by simp)
  have hwmem : weekOf x.1 ∈ sortKeys ((wretRows weekOf (resampleW days)).map (fun r => r.1)) := by
    apply mem_sortKeys.mpr
    have hcpos : 0 < (wretRows weekOf (resampleW days)).countP (fun r => r.1 == weekOf x.1) := by
      rw [hcount']
      exact Nat.one_pos
    obtain ⟨r, hrmem, hrp⟩ := List.countP_pos_iff.mp hcpos
    exact List.mem_map.mpr ⟨r, hrmem, by simpa using hrp⟩
  show List.lookup (weekOf x.1)
      ((sortKeys ((wretRows weekOf (resampleW days)).map (fun r => r.1))).map
        (fun w => (w, fillna0 (meanOpt (((wretRows weekOf (resampleW days)).filter
          (fun r => r.1 == w)).map (fun r => r.2)))))) = _
  rw [lookup_map_key _ _ _ hwmem, hfil]
  simp [meanOpt, fillna0]

/-- C1, witness: closes 100, 110 then 121 then 121 over three week buckets —
the value published for week 2 is the single resampled return
`(121/110 - 1) * 100 = 10`. -/
theorem weekly_avg_single_week_return_witness :
    ((resampleW [⟨1, 100⟩, ⟨1, 110⟩, ⟨2, 121⟩, ⟨3, 121⟩])[0]? = some (1, 110)) ∧
    ((resampleW [⟨1, 100⟩, ⟨1, 110⟩, ⟨2, 121⟩, ⟨3, 121⟩])[1]? = some (2, 121)) ∧
    (((resampleW [⟨1, 100⟩, ⟨1, 110⟩, ⟨2, 121⟩, ⟨3, 121⟩]).map
        (fun p => (fun k : ℕ => k) p.1)).count ((fun k : ℕ => k) 2) = 1) ∧
    (weekly_avg (fun k : ℕ => k) [⟨1, 100⟩, ⟨1, 110⟩, ⟨2, 121⟩, ⟨3, 121⟩]).lookup 2
      = some ((((121 : ℚ) / 110) - 1) * 100) ∧
    (((121 : ℚ) / 110) - 1) * 100 = 10 := by
  refine ⟨rfl, rfl, rfl, ?_, by norm_num⟩
  exact weekly_avg_single_week_return (fun k : ℕ => k)
    [⟨1, 100⟩, ⟨1, 110⟩, ⟨2, 121⟩, ⟨3, 121⟩] 0 (1, 110) (2, 121) rfl rfl rfl

/-- C1, counterexample to the claim as stated: on the same fixture the
specified semantics (daily returns summed per week, compounded across weeks,
averaged across years) puts `21` at week 2 — the running product
`(1.1)(1.1) - 1` in percent — while the code publishes `10`, the bare
week-over-week return of the resampled closes. -/
theorem weekly_avg_cumulative_counterexample :
    (weekly_avg (fun k : ℕ => k) [⟨1, 100⟩, ⟨1, 110⟩, ⟨2, 121⟩, ⟨3, 121⟩]).lookup 2
      = some 10 ∧
    (claimedWeeklyAvg (fun k : ℕ => k) (fun _ : ℕ => 2024)
        [⟨1, 100⟩, ⟨1, 110⟩, ⟨2, 121⟩, ⟨3, 121⟩]).lookup 2 = some 21 ∧
    (10 : ℚ) ≠ 21 := by
  refine ⟨?_, ?_, by norm_num⟩
  · norm_num [weekly_avg, wretRows, wretRowsGo, resampleW, sortKeys, meanOpt, fillna0,
      List.insertionSort, List.orderedInsert, List.lookup,
      List.filterMap_cons, List.filterMap_nil, List.countP_cons, List.countP_nil,
      List.sum_cons, List.sum_nil, id_eq]
    rfl
  · norm_num [claimedWeeklyAvg, specCumAt, specWeeksOfYear, specWeeklySum, specDayRets,
      specDayRetsGo, sortKeys, List.insertionSort, List.orderedInsert, List.lookup,
      List.filterMap_cons, List.filterMap_nil, List.countP_cons, List.countP_nil,
      List.sum_cons, List.sum_nil, id_eq]
    rfl

/-- C2 (amended): the weekly endpoint outer-joins the two curves on the
sorted union of their week numbers and replaces every value missing on one
side by a fabricated `0` (`fillna(0)`); no forward-fill from the previous
week happens, and values present on a side are taken as they are. -/
theorem merge_outer_fills_zero (avg ytd : List (ℕ × ℚ)) :
    (∀ w : ℕ, (∃ ab, (w, ab) ∈ mergeOuterFill0 avg ytd)
        ↔ (w ∈ avg.map (fun p => p.1) ∨ w ∈ ytd.map (fun p => p.1))) ∧
    List.Sorted (· ≤ ·) ((mergeOuterFill0 avg ytd).map (fun e => e.1)) ∧
    (∀ e ∈ mergeOuterFill0 avg ytd,
      (avg.lookup e.1 = none → e.2.1 = 0) ∧
      (∀ v, avg.lookup e.1 = some v → e.2.1 = v) ∧
      (ytd.lookup e.1 = none → e.2.2 = 0) ∧
      (∀ v, ytd.lookup e.1 = some v → e.2.2 = v)) := by
  refine ⟨fun w => ?_, ?_, fun e he => ?_⟩
  · constructor
    · rintro ⟨ab, hab⟩
      obtain ⟨k, hk, hke⟩ := List.mem_map.mp hab
      have hkw : k = w := congrArg Prod.fst hke
      subst hkw
      have := mem_sortKeys.mp hk
      exact List.mem_append.mp this
    · intro h
      have hks : w ∈ sortKeys (avg.map (fun p => p.1) ++ ytd.map (fun p => p.1)) :=
        mem_sortKeys.mpr (List.mem_append.mpr h)
      exact ⟨((avg.lookup w).getD 0, (ytd.lookup w).getD 0),
        List.mem_map.mpr ⟨w, hks, rfl⟩⟩
  · show List.Sorted (· ≤ ·)
      (((sortKeys (avg.map (fun p => p.1) ++ ytd.map (fun p => p.1))).map
        (fun w => (w, ((avg.lookup w).getD 0, (ytd.lookup w).getD 0)))).map (fun e => e.1))
    rw [List.map_map]
    have hid : ((fun e : ℕ × ℚ × ℚ => e.1) ∘
        (fun w => (w, ((avg.lookup w).getD 0, (ytd.lookup w).getD 0))))
        = fun w : ℕ => w := rfl
    rw [hid, List.map_id']
    exact List.sorted_insertionSort _ _
  · obtain ⟨k, _, hke⟩ := List.mem_map.mp he
    rw [← hke]
    refine ⟨?_, ?_, ?_, ?_⟩
    · intro h; show ((avg.lookup k).getD 0) = 0; rw [h]; rfl
    · intro v h; show ((avg.lookup k).getD 0) = v; rw [h]; rfl
    · intro h; show ((ytd.lookup k).getD 0) = 0; rw [h]; rfl
    · intro v h; show ((ytd.lookup k).getD 0) = v; rw [h]; rfl

/-- C2, witness: joining `avg = {1 ↦ 5}` with an empty ytd curve keeps the
avg value and fabricates `0` on the ytd side. -/
theorem merge_outer_fills_zero_witness :
    ((1, (5 : ℚ), (0 : ℚ)) ∈ mergeOuterFill0 [(1, 5)] []) ∧
    (([] : List (ℕ × ℚ)).lookup (1 : ℕ) = none) ∧
    ((1, (5 : ℚ), (0 : ℚ)).2.2 = 0) := by
  have hmem : (1, (5 : ℚ), (0 : ℚ)) ∈ mergeOuterFill0 [(1, 5)] [] := by
    show (1, (5 : ℚ), (0 : ℚ)) ∈ mergeOuterFill0 [(1, 5)] []
    exact List.mem_cons_self _ _
  exact ⟨hmem, rfl, ((merge_outer_fills_zero [(1, 5)] []).2.2 _ hmem).2.2.1 rfl⟩

/-! ## Claim C5: compare is best-effort and never fails as a whole -/

theorem monthlyRecords_ne_nil (r : MRow) (rs : List MRow) : monthlyRecords (r :: rs) ≠ [] := by
  simp only [monthlyRecords]
  intro h
  have hlen := congrArg List.length h
  rw [List.length_insertionSort, List.length_map, List.length_nil] at hlen
  have hnil : sortKeys ((r :: rs).map (fun x => x.month)) = [] := List.length_eq_zero.mp hlen
  have hmem : r.month ∈ sortKeys ((r :: rs).map (fun x => x.month)) :=
    mem_sortKeys.mpr (List.mem_map.mpr ⟨r, List.mem_cons_self r rs, rfl⟩)
  rw [hnil] at hmem
  cases hmem

theorem compare_foldl_lookup (fetchOf : String → Fetch MRow) (t : String) :
    ∀ (ts : List String) (acc : List (String × List MonthRecord)),
      (((ts.foldl (compareStep fetchOf) acc).lookup t).isSome = true)
        ↔ (((acc.lookup t).isSome = true)
            ∨ (t ∈ ts ∧ ∃ r rs, fetchOf t = Fetch.ok (r :: rs))) := by
  intro ts
  induction ts with
  | nil => intro acc; simp
  | cons s ts ih =>
    intro acc
    show (((ts.foldl (compareStep fetchOf) (compareStep fetchOf acc s)).lookup t).isSome = true) ↔ _
    rw [ih (compareStep fetchOf acc s)]
    have hstep : (((compareStep fetchOf acc s).lookup t).isSome = true)
        ↔ (((acc.lookup t).isSome = true)
            ∨ (t = s ∧ ∃ r rs, fetchOf s = Fetch.ok (r :: rs))) := by
      cases hf : fetchOf s with
      | err e => simp [compareStep, hf, calculate_seasonality]
      | ok rows =>
        cases rows with
        | nil => simp [compareStep, hf, calculate_seasonality]
        | cons r0 rs0 =>
          have hne := monthlyRecords_ne_nil r0 rs0
          simp only [compareStep, hf, calculate_seasonality, if_neg hne]
          cases hacc : acc.lookup s with
          | some v =>
            constructor
            · intro h; exact Or.inl h
            · rintro (h | ⟨hts, _⟩)
              · exact h
              · subst hts
                rw [hacc]
                rfl
          | none =>
            rw [List.lookup_append]
            by_cases hts : t = s
            · subst hts
              have hone : List.lookup t [(t, monthlyRecords (r0 :: rs0))]
                  = some (monthlyRecords (r0 :: rs0)) := by
                simp [List.lookup]
              rw [hacc, hone]
              simp
            · have hnone : List.lookup t [(s, monthlyRecords (r0 :: rs0))] = none := by
                have hbeq : (t == s) = false := by simp [hts]
                simp [List.lookup, hbeq]
              rw [hnone]
              simp [hts]
    rw [hstep]
    constructor
    · rintro ((h | ⟨hts, hG⟩) | ⟨hmem, hG⟩)
      · exact Or.inl h
      · subst hts
        exact Or.inr ⟨List.mem_cons_self t ts, hG⟩
      · exact Or.inr ⟨List.mem_cons_of_mem s hmem, hG⟩
    · rintro (h | ⟨hmem, hG⟩)
      · exact Or.inl (Or.inl h)
      · rcases List.mem_cons.mp hmem with h1 | h1
        · subst h1
          exact Or.inl (Or.inr ⟨rfl, hG⟩)
        · exact Or.inr ⟨h1, hG⟩

/-- C5: the compare endpoint always answers 200, and its comparison mapping
holds an entry for a ticker exactly when that ticker appears in the parsed
request list and its fetch succeeded with a non-empty history; failed and
empty tickers are silently omitted (so the mapping can be empty, and compare
never fails as a whole). -/
theorem compare_best_effort (param period : String) (fetchOf : String → Fetch MRow) :
    (compare_seasonality param period fetchOf).1 = 200 ∧
    (∀ t, ((((compare_seasonality param period fetchOf).2.comparison.lookup t).isSome) = true)
        ↔ (t ∈ (param.splitOn ",").map (fun s => s.trim)
            ∧ ∃ r rs, fetchOf t = Fetch.ok (r :: rs))) := by
  refine ⟨rfl, fun t => ?_⟩
  show ((((((param.splitOn ",").map (fun s => s.trim)).foldl
      (compareStep fetchOf) []).lookup t).isSome) = true) ↔ _
  rw [compare_foldl_lookup fetchOf t _ []]
  simp [List.lookup]

end Seasonality
